import Mathlib

/-!
Shallow embedding of the mohanatextiles storefront's reproducible logic:
the image-URL normalizers (`getEmbeddableImageUrl` in `src/lib/utils.ts`,
`extractDriveUrl` in `src/pages/admin/AdminProducts.tsx`), the auth
service (`src/lib/authService.ts`) together with the auth store's
`logout` (`src/store/authStore.ts`), and the generic API error handling
(`apiRequest` in `src/lib/api.ts`).

Strings are modelled as `List Char`.  The JavaScript regular expressions
used by the normalizers all have the shape `lit([a-zA-Z0-9_-]+)` (with a
two-way character class `[?&]` in one case), so `String.match` is
embedded as a left-to-right scan that, at each start position, matches
the literal part and then takes the maximal run of identifier
characters, requiring that run to be non-empty (the `+`).
-/

/-- The character class `[a-zA-Z0-9_-]` of the file-id capture groups. -/
def isIdChar (c : Char) : Bool :=
  c.isAlpha || c.isDigit || c = '_' || c = '-'

/-- Match the literal `p` at the front of `s`; on success return the rest. -/
def matchLit : List Char → List Char → Option (List Char)
  | [], s => some s
  | _ :: _, [] => none
  | p :: ps, c :: cs => if p = c then matchLit ps cs else none

/-- At a fixed start position `s`, try each alternative literal in turn;
a literal succeeds when it matches and is followed by at least one
identifier character, in which case the maximal identifier run (the
greedy `+` capture) is returned. -/
def tryPats : List (List Char) → List Char → Option (List Char)
  | [], _ => none
  | p :: ps, s =>
    match matchLit p s with
    | none => tryPats ps s
    | some rest =>
      match rest.takeWhile isIdChar with
      | [] => tryPats ps s
      | c :: cs => some (c :: cs)

/-- Left-to-right regex search: return the capture of the leftmost
start position at which one of the literals matches followed by a
non-empty identifier run (the semantics of `String.prototype.match`
for patterns of the form `lit([a-zA-Z0-9_-]+)`). -/
def findId (pats : List (List Char)) : List Char → Option (List Char)
  | [] => none
  | c :: cs =>
    match tryPats pats (c :: cs) with
    | some r => some r
    | none => findId pats cs

/-- Regex `/googleusercontent\.com\/d\/([a-zA-Z0-9_-]+)/` -/
def lh3Pat : List (List Char) := ["googleusercontent.com/d/".toList]

/-- Regex `/\/file\/d\/([a-zA-Z0-9_-]+)/` -/
def filePat : List (List Char) := ["/file/d/".toList]

/-- Regex `/open\?id=([a-zA-Z0-9_-]+)/` -/
def openPat : List (List Char) := ["open?id=".toList]

/-- Regex `/[?&]id=([a-zA-Z0-9_-]+)/` -/
def qidPat : List (List Char) := ["?id=".toList, "&id=".toList]

/-- Regex `/\/d\/([a-zA-Z0-9_-]+)/` -/
def dPat : List (List Char) := ["/d/".toList]

/-- Regex `/uc\?export=view&id=([a-zA-Z0-9_-]+)/` (admin-side only) -/
def ucPat : List (List Char) := ["uc?export=view&id=".toList]

/-- Embeds `url.startsWith(p)`. -/
def startsWithL (p s : List Char) : Bool :=
  (matchLit p s).isSome

/-- Embeds `url.includes(p)` (substring containment). -/
def hasSub (p : List Char) : List Char → Bool
  | [] => (matchLit p []).isSome
  | c :: cs => (matchLit p (c :: cs)).isSome || hasSub p cs

/-- The file-id extraction cascade of `getEmbeddableImageUrl`
(`utils.ts` lines 95–116): `lh3Match`, then — each guarded by
`!fileId` — `fileMatch`, `openMatch`, `idMatch`, `dMatch`. -/
def extractFileId (url : List Char) : Option (List Char) :=
  match findId lh3Pat url with
  | some r => some r
  | none =>
    match findId filePat url with
    | some r => some r
    | none =>
      match findId openPat url with
      | some r => some r
      | none =>
        match findId qidPat url with
        | some r => some r
        | none => findId dPat url

/-- Hex digit used by `encodeURIComponent` percent-escapes (uppercase). -/
def hexDigit (n : Nat) : Char :=
  if n < 10 then Char.ofNat (48 + n) else Char.ofNat (55 + n)

/-- One percent-escape `%XX` for the byte `n`. -/
def percentByte (n : Nat) : List Char :=
  ['%', hexDigit (n / 16), hexDigit (n % 16)]

/-- UTF-8 bytes of a code point, as `encodeURIComponent` encodes them. -/
def utf8Bytes (c : Char) : List Nat :=
  let n := c.toNat
  if n < 128 then [n]
  else if n < 2048 then [192 + n / 64, 128 + n % 64]
  else if n < 65536 then [224 + n / 4096, 128 + n / 64 % 64, 128 + n % 64]
  else [240 + n / 262144, 128 + n / 4096 % 64, 128 + n / 64 % 64, 128 + n % 64]

/-- The characters `encodeURIComponent` leaves unescaped. -/
def isUnescapedURI (c : Char) : Bool :=
  c.isAlpha || c.isDigit ||
    (c ∈ ['-', '_', '.', '!', '~', '*', Char.ofNat 39, '(', ')'])

/-- JavaScript's `encodeURIComponent`. -/
def encodeURIComponent (url : List Char) : List Char :=
  (url.map (fun c =>
    if isUnescapedURI c then [c]
    else ((utf8Bytes c).map percentByte).foldr (· ++ ·) [])).foldr (· ++ ·) []

/-- Embeds `getEmbeddableImageUrl` (`utils.ts` lines 82–127).  `none` stands
for a `null`/`undefined` argument; the JavaScript falsiness guard
`if (!url)` also sends the empty string to the placeholder branch.
`apiBase` is the statically configured `VITE_API_URL` (defaulted to
`http://localhost:8000` in the source). -/
def getEmbeddableImageUrl (apiBase : List Char) :
    Option (List Char) → List Char
  | none => "/placeholder.jpg".toList
  | some url =>
    if url = [] then "/placeholder.jpg".toList
    else if startsWithL "data:".toList url then url
    else if startsWithL "/".toList url then url
    else if startsWithL "http://localhost".toList url then url
    else if !hasSub "google.com".toList url
        && !hasSub "googleusercontent.com".toList url then url
    else
      match extractFileId url with
      | some fid => apiBase ++ "/api/images/drive/".toList ++ fid
      | none => apiBase ++ "/api/images/proxy?url=".toList
          ++ encodeURIComponent url

/-- Embeds the test `/^[a-zA-Z0-9_-]\x7b20,\x7d$/.test(input)`. -/
def bareIdTest (input : List Char) : Bool :=
  decide (20 ≤ input.length) && input.all isIdChar

/-- The file-id derivation of the admin-side `extractDriveUrl`
(`AdminProducts.tsx` lines 176–190): `fileMatch`, then — each guarded
by `!fileId` — `openMatch` (`[?&]id=`), `ucMatch`, and finally the
bare-file-id test. -/
def driveFileId (input : List Char) : Option (List Char) :=
  match findId filePat input with
  | some r => some r
  | none =>
    match findId qidPat input with
    | some r => some r
    | none =>
      match findId ucPat input with
      | some r => some r
      | none => if bareIdTest input then some input else none

/-- Embeds `extractDriveUrl` (`AdminProducts.tsx` lines 168–198). -/
def extractDriveUrl (input : List Char) : List Char :=
  if input = [] then []
  else if hasSub "lh3.googleusercontent.com".toList input then input
  else
    match driveFileId input with
    | some fid => "https://lh3.googleusercontent.com/d/".toList ++ fid
    | none => input

/-- First-match-wins evaluation of an ordered list of match results,
the evaluation discipline the specification prescribes for the
normalizer's pattern list. -/
def firstSome : List (Option (List Char)) → Option (List Char)
  | [] => none
  | o :: os =>
    match o with
    | some r => some r
    | none => firstSome os

/-- The fixed priority order of the display normalizer's matchers:
content-host `lh3` form, `/file/d/` form, `open?id=` form, generic
`[?&]id=` query form, generic `/d/` path-segment form. -/
def patternOrder : List (List (List Char)) :=
  [lh3Pat, filePat, openPat, qidPat, dPat]

/-- Spec-side extractor: the ordered matcher list of `patternOrder`
evaluated in sequence with first-match-wins semantics (the
specification's prescribed shape, to be compared with the source's
`extractFileId` cascade). -/
def specOrderedExtract (url : List Char) : Option (List Char) :=
  firstSome (patternOrder.map (fun pats => findId pats url))

/-- The `AdminUser` record of `src/types` (`displayName` is optional). -/
structure AdminUser where
  id : List Char
  email : List Char
  displayName : Option (List Char)
  isAdmin : Bool
deriving DecidableEq

/-- The `AuthResponse` record returned by `/api/auth/login`. -/
structure AuthResponse where
  access_token : List Char
  token_type : List Char
  user : AdminUser
deriving DecidableEq

/-- The two `sessionStorage` keys the auth code touches:
`auth_token` (bearer credential) and `auth-storage` (the persisted
zustand auth state). `none` means the key is absent. -/
structure SessionStore where
  authToken : Option (List Char)
  authStorage : Option (List Char)
deriving DecidableEq

/-- Outcome of one remote HTTP exchange performed through `apiRequest`:
either a decoded payload or a thrown `Error` carrying a message. -/
inductive ApiResult (α : Type) where
  | ok (a : α)
  | err (msg : List Char)
deriving DecidableEq

/-- The record `{ user, token, error }` returned by `signInAdmin`. -/
structure SignInOutcome where
  user : Option AdminUser
  token : Option (List Char)
  error : Option (List Char)
deriving DecidableEq

/-- Embeds `signInAdmin` (`authService.ts` lines 13–32).  The remote
exchange on `/api/auth/login` is the function's only interaction with
the network, so its outcome is passed as the `remote` argument; the
function stores the token in `sessionStorage` only on success, and on
a thrown error returns the error's message with `null` user and token. -/
def signInAdmin (remote : ApiResult AuthResponse) (ss : SessionStore) :
    SignInOutcome × SessionStore :=
  match remote with
  | .ok r =>
    (⟨some r.user, some r.access_token, none⟩,
     { ss with authToken := some r.access_token })
  | .err m => (⟨none, none, some m⟩, ss)

/-- The zustand auth-store state (`authStore.ts`): `user`, `isAdmin`,
`isLoading`, `token`. -/
structure AuthState where
  user : Option AdminUser
  isAdmin : Bool
  isLoading : Bool
  token : Option (List Char)
deriving DecidableEq

/-- Embeds the auth store's `logout` (`authStore.ts` lines 44–48):
removes both `sessionStorage` keys and resets `user`, `isAdmin` and
`token` (leaving `isLoading` as it was). -/
def logout (st : AuthState) (ss : SessionStore) :
    AuthState × SessionStore :=
  ({ st with user := none, isAdmin := false, token := none },
   { ss with authToken := none, authStorage := none })

/-- The record `{ valid, user }` returned by `verifyToken`. -/
structure VerifyOutcome where
  valid : Bool
  user : Option AdminUser
deriving DecidableEq

/-- Embeds `verifyToken` (`authService.ts` lines 75–87): with no stored
token it answers not-authenticated without any remote call; otherwise
it asks `/api/auth/me` (outcome passed as `remote`); a thrown error
yields not-authenticated, and the stored token is not removed (the
source's comment: let the caller decide). -/
def verifyToken (remote : ApiResult AdminUser) (ss : SessionStore) :
    VerifyOutcome × SessionStore :=
  match ss.authToken with
  | none => (⟨false, none⟩, ss)
  | some _ =>
    match remote with
    | .ok u => (⟨true, some u⟩, ss)
    | .err _ => (⟨false, none⟩, ss)

/-- Embeds `getCurrentUser` (`authService.ts` lines 50–62), kept for
contrast with `verifyToken`: this one does purge the stored token when
the remote check fails. -/
def getCurrentUser (remote : ApiResult AdminUser) (ss : SessionStore) :
    Option AdminUser × SessionStore :=
  match ss.authToken with
  | none => (none, ss)
  | some _ =>
    match remote with
    | .ok u => (some u, ss)
    | .err _ => (none, { ss with authToken := none })

/-- Parse status of the JSON body of an HTTP error response: either it
is not parsable JSON, or it parsed and carries an optional `detail`
field (the human-readable message; `none` also covers a parsed body
with no usable `detail`). -/
inductive JsonBody where
  | unparsable
  | parsed (detail : Option (List Char))
deriving DecidableEq

/-- An HTTP response as `apiRequest` observes it: `response.ok`,
`response.status`, and the JSON-parse status of its body. -/
structure HttpResponse where
  ok : Bool
  status : Nat
  body : JsonBody
deriving DecidableEq

/-- Outcome of `apiRequest`: resolves with the response body, or
throws an `Error` with a message. -/
inductive ApiOutcome where
  | resolved (body : JsonBody)
  | thrown (msg : List Char)
deriving DecidableEq

/-- The fallback message `HTTP error! status: N` of `api.ts` line 47. -/
def statusMessage (status : Nat) : List Char :=
  "HTTP error! status: ".toList ++ (Nat.repr status).toList

/-- Embeds the response handling of `apiRequest` (`api.ts` lines
37–51).  On a non-OK response, `response.json()` is attempted with an
unparsable body replaced by `{ detail: 'Request failed' }`, and the
thrown message is `errorData.detail || 'HTTP error! status: N'` —
where a missing or empty (falsy) `detail` selects the status fallback. -/
def apiRequest (resp : HttpResponse) : ApiOutcome :=
  if resp.ok then .resolved resp.body
  else
    let errorDetail : Option (List Char) :=
      match resp.body with
      | .unparsable => some "Request failed".toList
      | .parsed d => d
    .thrown
      (match errorDetail with
      | some m => if m = [] then statusMessage resp.status else m
      | none => statusMessage resp.status)

/-! ### Lemmas about the literal matcher and the scan -/

theorem matchLit_self_append (p t : List Char) :
    matchLit p (p ++ t) = some t := by
  induction p with
  | nil => rfl
  | cons a ps ih =>
    rw [List.cons_append]
    simp only [matchLit, if_pos rfl]
    exact ih

theorem matchLit_some_append (p s t r : List Char)
    (h : matchLit p s = some r) :
    matchLit p (s ++ t) = some (r ++ t) := by
  induction p generalizing s with
  | nil =>
    simp only [matchLit, Option.some.injEq] at h
    subst h
    rfl
  | cons a ps ih =>
    cases s with
    | nil => simp [matchLit] at h
    | cons c cs =>
      rw [List.cons_append]
      by_cases hac : a = c
      · simp only [matchLit, if_pos hac] at h ⊢
        exact ih cs h
      · simp only [matchLit, if_neg hac] at h
        exact Option.noConfusion h

theorem matchLit_none_extend (p s t : List Char)
    (hlen : p.length ≤ s.length) (h : matchLit p s = none) :
    matchLit p (s ++ t) = none := by
  induction p generalizing s with
  | nil => simp [matchLit] at h
  | cons a ps ih =>
    cases s with
    | nil => simp at hlen
    | cons c cs =>
      rw [List.cons_append]
      by_cases hac : a = c
      · simp only [matchLit, if_pos hac] at h ⊢
        exact ih cs (by simpa using hlen) h
      · simp only [matchLit, if_neg hac]

/-- Certificate that every literal of `pats` fails outright at the
front of `s`, with the mismatch occurring inside `s`. -/
def patsFailAt (pats : List (List Char)) (s : List Char) : Bool :=
  pats.all fun p => decide (p.length ≤ s.length) && (matchLit p s).isNone

theorem tryPats_none_extend (pats : List (List Char)) (s t : List Char)
    (h : patsFailAt pats s = true) : tryPats pats (s ++ t) = none := by
  induction pats with
  | nil => rfl
  | cons p ps ih =>
    rw [patsFailAt, List.all_cons, Bool.and_eq_true] at h
    obtain ⟨hp, hps⟩ := h
    rw [Bool.and_eq_true, decide_eq_true_eq, Option.isNone_iff_eq_none] at hp
    have hm := matchLit_none_extend p s t hp.1 hp.2
    simp only [tryPats, hm]
    exact ih hps

theorem findId_cons_none (pats : List (List Char)) (c : Char)
    (cs : List Char) (h : tryPats pats (c :: cs) = none) :
    findId pats (c :: cs) = findId pats cs := by
  simp [findId, h]

theorem findId_cons_some (pats : List (List Char)) (c : Char)
    (cs r : List Char) (h : tryPats pats (c :: cs) = some r) :
    findId pats (c :: cs) = some r := by
  simp [findId, h]

/-- Certificate that the scan finds no match at any start position
inside `s`, even allowing the literal to run on into `w`. -/
def skipScan (pats : List (List Char)) (w : List Char) :
    List Char → Bool
  | [] => true
  | c :: cs => patsFailAt pats ((c :: cs) ++ w) && skipScan pats w cs

theorem skipScan_sound (pats : List (List Char)) (w s v : List Char)
    (h : skipScan pats w s = true) :
    findId pats (s ++ (w ++ v)) = findId pats (w ++ v) := by
  induction s with
  | nil => rw [List.nil_append]
  | cons c cs ih =>
    rw [skipScan, Bool.and_eq_true] at h
    obtain ⟨h1, h2⟩ := h
    rw [List.cons_append]
    have hassoc : c :: (cs ++ (w ++ v)) = ((c :: cs) ++ w) ++ v := by
      simp [List.append_assoc]
    have hnone : tryPats pats (c :: (cs ++ (w ++ v))) = none := by
      rw [hassoc]
      exact tryPats_none_extend pats ((c :: cs) ++ w) v h1
    rw [findId_cons_none pats c _ hnone]
    exact ih h2

theorem takeWhile_append_all (l₁ l₂ : List Char)
    (h : ∀ c ∈ l₁, isIdChar c = true) :
    (l₁ ++ l₂).takeWhile isIdChar = l₁ ++ l₂.takeWhile isIdChar := by
  induction l₁ with
  | nil => simp
  | cons c cs ih =>
    have hc := h c (List.mem_cons_self c cs)
    rw [List.cons_append, List.takeWhile_cons, hc]
    simp only [if_true]
    rw [ih (fun x hx => h x (List.mem_cons_of_mem c hx))]
    rw [List.cons_append]

theorem takeWhile_all_self (l : List Char)
    (h : ∀ c ∈ l, isIdChar c = true) :
    l.takeWhile isIdChar = l := by
  have := takeWhile_append_all l [] h
  simpa using this

theorem tryPats_hit (p X r : List Char) (hr : r ≠ [])
    (h : X.takeWhile isIdChar = r) :
    tryPats [p] (p ++ X) = some r := by
  obtain ⟨c, cs, rfl⟩ : ∃ c cs, r = c :: cs := by
    cases r with
    | nil => exact absurd rfl hr
    | cons c cs => exact ⟨c, cs, rfl⟩
  simp only [tryPats, matchLit_self_append, h]

theorem findId_hit (p X r : List Char) (hp : p ≠ []) (hr : r ≠ [])
    (h : X.takeWhile isIdChar = r) :
    findId [p] (p ++ X) = some r := by
  obtain ⟨a, ps, rfl⟩ : ∃ a ps, p = a :: ps := by
    cases p with
    | nil => exact absurd rfl hp
    | cons a ps => exact ⟨a, ps, rfl⟩
  rw [List.cons_append]
  apply findId_cons_some
  rw [← List.cons_append]
  exact tryPats_hit (a :: ps) X r hr h

theorem hasSub_nil_pat (s : List Char) : hasSub [] s = true := by
  cases s <;> simp [hasSub, matchLit]

theorem hasSub_extend (p s t : List Char) (h : hasSub p s = true) :
    hasSub p (s ++ t) = true := by
  induction s with
  | nil =>
    cases p with
    | nil => simpa using hasSub_nil_pat t
    | cons a ps => simp [hasSub, matchLit] at h
  | cons c cs ih =>
    rw [List.cons_append]
    rw [hasSub, Bool.or_eq_true] at h
    cases h with
    | inl h1 =>
      obtain ⟨r, hr⟩ := Option.isSome_iff_exists.mp h1
      have hm := matchLit_some_append p (c :: cs) t r hr
      rw [List.cons_append] at hm
      rw [hasSub, Bool.or_eq_true]
      exact Or.inl (by simp [hm])
    | inr h2 =>
      rw [hasSub, Bool.or_eq_true]
      exact Or.inr (ih h2)

theorem startsWithL_extend_false (p s t : List Char)
    (hlen : p.length ≤ s.length) (h : matchLit p s = none) :
    startsWithL p (s ++ t) = false := by
  rw [startsWithL, matchLit_none_extend p s t hlen h]
  rfl

theorem append_ne_nil₁ (s t : List Char) (h : s ≠ []) : s ++ t ≠ [] := by
  cases s with
  | nil => exact absurd rfl h
  | cons c cs => simp

theorem tryPats_run (pats : List (List Char)) (s r : List Char)
    (h : tryPats pats s = some r) :
    r ≠ [] ∧ ∀ c ∈ r, isIdChar c = true := by
  induction pats with
  | nil => simp [tryPats] at h
  | cons p ps ih =>
    cases hm : matchLit p s with
    | none =>
      simp only [tryPats, hm] at h
      exact ih h
    | some rest =>
      cases hw : rest.takeWhile isIdChar with
      | nil =>
        simp only [tryPats, hm, hw] at h
        exact ih h
      | cons c cs =>
        simp only [tryPats, hm, hw, Option.some.injEq] at h
        subst h
        refine ⟨by simp, fun x hx => ?_⟩
        exact List.mem_takeWhile_imp (hw ▸ hx)

theorem findId_run (pats : List (List Char)) (s r : List Char)
    (h : findId pats s = some r) :
    r ≠ [] ∧ ∀ c ∈ r, isIdChar c = true := by
  induction s with
  | nil => simp [findId] at h
  | cons c cs ih =>
    cases ht : tryPats pats (c :: cs) with
    | none =>
      rw [findId_cons_none pats c cs ht] at h
      exact ih h
    | some v =>
      rw [findId_cons_some pats c cs v ht] at h
      rw [Option.some.injEq] at h
      subst h
      exact tryPats_run pats (c :: cs) v ht

theorem driveFileId_run (input id : List Char)
    (h : driveFileId input = some id) :
    id ≠ [] ∧ ∀ c ∈ id, isIdChar c = true := by
  unfold driveFileId at h
  cases h1 : findId filePat input with
  | some r =>
    rw [h1, Option.some.injEq] at h
    exact h ▸ findId_run filePat input r h1
  | none =>
    rw [h1] at h
    cases h2 : findId qidPat input with
    | some r =>
      rw [h2, Option.some.injEq] at h
      exact h ▸ findId_run qidPat input r h2
    | none =>
      rw [h2] at h
      cases h3 : findId ucPat input with
      | some r =>
        rw [h3, Option.some.injEq] at h
        exact h ▸ findId_run ucPat input r h3
      | none =>
        rw [h3] at h
        by_cases hb : bareIdTest input = true
        · rw [if_pos hb, Option.some.injEq] at h
          subst h
          rw [bareIdTest, Bool.and_eq_true, decide_eq_true_eq] at hb
          refine ⟨fun hnil => by simp [hnil] at hb, fun c hc => ?_⟩
          exact (List.all_eq_true.mp hb.2) c hc
        · rw [if_neg hb] at h
          exact Option.noConfusion h

/-! ### The extraction path of the display normalizer -/

theorem getEmbeddable_found (apiBase url fid : List Char)
    (h0 : url ≠ [])
    (h1 : startsWithL "data:".toList url = false)
    (h2 : startsWithL "/".toList url = false)
    (h3 : startsWithL "http://localhost".toList url = false)
    (h4 : (!hasSub "google.com".toList url
        && !hasSub "googleusercontent.com".toList url) = false)
    (h5 : extractFileId url = some fid) :
    getEmbeddableImageUrl apiBase (some url)
    = apiBase ++ "/api/images/drive/".toList ++ fid := by
  simp only [getEmbeddableImageUrl, if_neg h0, h1, h2, h3, h4, h5,
    Bool.false_eq_true, if_false]

/-- Resolving a stored content-host reference: on any identifier made
of identifier characters, the display normalizer maps
`https://lh3.googleusercontent.com/d/<id>` to the backend drive proxy
for `<id>`. -/
theorem getEmbeddable_lh3 (apiBase id : List Char) (hne : id ≠ [])
    (hid : ∀ c ∈ id, isIdChar c = true) :
    getEmbeddableImageUrl apiBase
      (some ("https://lh3.googleusercontent.com/d/".toList ++ id))
    = apiBase ++ "/api/images/drive/".toList ++ id := by
  have hsplit : "https://lh3.googleusercontent.com/d/".toList
      = "https://lh3.".toList ++ "googleusercontent.com/d/".toList := by
    decide
  have hlh3 : findId lh3Pat
      ("https://lh3.googleusercontent.com/d/".toList ++ id) = some id := by
    rw [hsplit, List.append_assoc]
    rw [skipScan_sound lh3Pat "googleusercontent.com/d/".toList
      "https://lh3.".toList id (by decide)]
    exact findId_hit "googleusercontent.com/d/".toList id id (by decide)
      hne (takeWhile_all_self id hid)
  have hex : extractFileId
      ("https://lh3.googleusercontent.com/d/".toList ++ id) = some id := by
    simp only [extractFileId, hlh3]
  apply getEmbeddable_found
  · exact append_ne_nil₁ _ _ (by decide)
  · exact startsWithL_extend_false _ _ _ (by decide) (by decide)
  · exact startsWithL_extend_false _ _ _ (by decide) (by decide)
  · exact startsWithL_extend_false _ _ _ (by decide) (by decide)
  · have hgu : hasSub "googleusercontent.com".toList
        ("https://lh3.googleusercontent.com/d/".toList ++ id) = true :=
      hasSub_extend _ _ _ (by decide)
    rw [hgu]
    simp
  · exact hex

/-! ### Claims -/

/-- C1: for every URL of the drive-file shape
`https://drive.google.com/file/d/<id><rest>` — `<id>` a non-empty
string of letters, digits, underscore, hyphen, `<rest>` empty or
starting with a non-identifier character (such as `/view`), and the
URL not matching the content-host `lh3` pattern — the display
normalizer extracts exactly `<id>` and returns
`<apiBase>/api/images/drive/<id>`. -/
theorem spec_c1_file_d_extraction (apiBase id post : List Char)
    (hne : id ≠ [])
    (hid : ∀ c ∈ id, isIdChar c = true)
    (hpost : post.takeWhile isIdChar = [])
    (hlh3 : findId lh3Pat
      ("https://drive.google.com/file/d/".toList ++ (id ++ post)) = none) :
    getEmbeddableImageUrl apiBase
      (some ("https://drive.google.com/file/d/".toList ++ (id ++ post)))
    = apiBase ++ "/api/images/drive/".toList ++ id := by
  have hsplit : "https://drive.google.com/file/d/".toList
      = "https://drive.google.com".toList ++ "/file/d/".toList := by decide
  have hrun : (id ++ post).takeWhile isIdChar = id := by
    rw [takeWhile_append_all id post hid, hpost, List.append_nil]
  have hfile : findId filePat
      ("https://drive.google.com/file/d/".toList ++ (id ++ post))
      = some id := by
    rw [hsplit, List.append_assoc]
    rw [skipScan_sound filePat "/file/d/".toList
      "https://drive.google.com".toList (id ++ post) (by decide)]
    exact findId_hit "/file/d/".toList (id ++ post) id (by decide) hne hrun
  have hex : extractFileId
      ("https://drive.google.com/file/d/".toList ++ (id ++ post))
      = some id := by
    simp only [extractFileId, hlh3, hfile]
  apply getEmbeddable_found
  · exact append_ne_nil₁ _ _ (by decide)
  · exact startsWithL_extend_false _ _ _ (by decide) (by decide)
  · exact startsWithL_extend_false _ _ _ (by decide) (by decide)
  · exact startsWithL_extend_false _ _ _ (by decide) (by decide)
  · have hg : hasSub "google.com".toList
        ("https://drive.google.com/file/d/".toList ++ (id ++ post))
        = true := hasSub_extend _ _ _ (by decide)
    rw [hg]
    rfl
  · exact hex

/-- Witness for C1: the specification's own scenario, obtained by
applying the theorem at `id = ABC123xyz`, `rest = /view`,
`apiBase = http://localhost:8000`. -/
theorem spec_c1_file_d_extraction_witness :
    getEmbeddableImageUrl "http://localhost:8000".toList
      (some "https://drive.google.com/file/d/ABC123xyz/view".toList)
    = "http://localhost:8000/api/images/drive/ABC123xyz".toList := by
  have h := spec_c1_file_d_extraction "http://localhost:8000".toList
    "ABC123xyz".toList "/view".toList (by decide) (by decide) (by decide)
    (by decide)
  have heq : "https://drive.google.com/file/d/".toList
      ++ ("ABC123xyz".toList ++ "/view".toList)
      = "https://drive.google.com/file/d/ABC123xyz/view".toList := by decide
  have hout : "http://localhost:8000".toList
      ++ "/api/images/drive/".toList ++ "ABC123xyz".toList
      = "http://localhost:8000/api/images/drive/ABC123xyz".toList := by
    decide
  rw [heq, hout] at h
  exact h

/-- C2 counterexample: the display-time normalizer does not return a
content-host direct-file URL unchanged; at the concrete input
`https://lh3.googleusercontent.com/d/ABC123xyz` it rewrites the URL
(to the backend drive proxy). -/
theorem spec_c2_lh3_counterexample :
    getEmbeddableImageUrl "http://localhost:8000".toList
      (some "https://lh3.googleusercontent.com/d/ABC123xyz".toList)
    ≠ "https://lh3.googleusercontent.com/d/ABC123xyz".toList := by decide

/-- C2 (amended): for every known content-host direct-file URL
`https://lh3.googleusercontent.com/d/<id>`, the admin-side normalizer
`extractDriveUrl` returns the input unchanged, while the display-time
normalizer `getEmbeddableImageUrl` extracts `<id>` and returns
`<apiBase>/api/images/drive/<id>`. -/
theorem spec_c2_lh3_unchanged (apiBase id : List Char) (hne : id ≠ [])
    (hid : ∀ c ∈ id, isIdChar c = true) :
    extractDriveUrl ("https://lh3.googleusercontent.com/d/".toList ++ id)
      = "https://lh3.googleusercontent.com/d/".toList ++ id
    ∧ getEmbeddableImageUrl apiBase
        (some ("https://lh3.googleusercontent.com/d/".toList ++ id))
      = apiBase ++ "/api/images/drive/".toList ++ id := by
  constructor
  · have hsub : hasSub "lh3.googleusercontent.com".toList
        ("https://lh3.googleusercontent.com/d/".toList ++ id) = true :=
      hasSub_extend _ _ _ (by decide)
    have hn : "https://lh3.googleusercontent.com/d/".toList ++ id ≠ [] :=
      append_ne_nil₁ _ _ (by decide)
    simp only [extractDriveUrl, if_neg hn, hsub, if_true]
  · exact getEmbeddable_lh3 apiBase id hne hid

/-- Witness for C2 (amended), at `id = ABC123xyz` and
`apiBase = http://localhost:8000`. -/
theorem spec_c2_lh3_unchanged_witness :
    extractDriveUrl
        ("https://lh3.googleusercontent.com/d/".toList
          ++ "ABC123xyz".toList)
      = "https://lh3.googleusercontent.com/d/".toList
          ++ "ABC123xyz".toList
    ∧ getEmbeddableImageUrl "http://localhost:8000".toList
        (some ("https://lh3.googleusercontent.com/d/".toList
          ++ "ABC123xyz".toList))
      = "http://localhost:8000".toList
          ++ "/api/images/drive/".toList ++ "ABC123xyz".toList :=
  spec_c2_lh3_unchanged "http://localhost:8000".toList
    "ABC123xyz".toList (by decide) (by decide)

/-- C3 counterexample: the two normalizers do not agree on identifier
extraction from the original input, in either direction.  Forward: on
the bare 21-character input `ABCDEFGHIJKLMNOPQRSTU` the admin
normalizer derives that identifier and stores the content-host form,
but the display normalizer extracts nothing from the original input
and returns it unchanged.  Converse: on
`https://drive.google.com/d/XYZ9876543/view` the display normalizer
extracts `XYZ9876543` via its generic `/d/` pattern, but the admin
normalizer derives no identifier and stores the input unchanged. -/
theorem spec_c3_agreement_counterexample :
    (extractDriveUrl "ABCDEFGHIJKLMNOPQRSTU".toList
      = "https://lh3.googleusercontent.com/d/ABCDEFGHIJKLMNOPQRSTU".toList
     ∧ extractFileId "ABCDEFGHIJKLMNOPQRSTU".toList = none
     ∧ getEmbeddableImageUrl "http://localhost:8000".toList
         (some "ABCDEFGHIJKLMNOPQRSTU".toList)
       = "ABCDEFGHIJKLMNOPQRSTU".toList)
    ∧ (extractFileId "https://drive.google.com/d/XYZ9876543/view".toList
        = some "XYZ9876543".toList
     ∧ driveFileId "https://drive.google.com/d/XYZ9876543/view".toList
        = none
     ∧ extractDriveUrl "https://drive.google.com/d/XYZ9876543/view".toList
        = "https://drive.google.com/d/XYZ9876543/view".toList) := by
  decide

/-- C3 (amended): whenever the admin-side normalizer derives a file
identifier `<id>` from a (non-empty, non-content-host) input and so
stores `https://lh3.googleusercontent.com/d/<id>`, the display-time
normalizer resolves that stored reference: it extracts the same `<id>`
from the stored form and returns `<apiBase>/api/images/drive/<id>` —
so no stored reference is one the display normalizer cannot resolve,
even though the two extraction cascades disagree on raw inputs. -/
theorem spec_c3_stored_reference_resolves (apiBase input id : List Char)
    (hfid : driveFileId input = some id) (hne : input ≠ [])
    (hlh3 : hasSub "lh3.googleusercontent.com".toList input = false) :
    extractDriveUrl input
      = "https://lh3.googleusercontent.com/d/".toList ++ id
    ∧ getEmbeddableImageUrl apiBase
        (some ("https://lh3.googleusercontent.com/d/".toList ++ id))
      = apiBase ++ "/api/images/drive/".toList ++ id := by
  obtain ⟨hid_ne, hid_all⟩ := driveFileId_run input id hfid
  constructor
  · simp only [extractDriveUrl, if_neg hne, hlh3, Bool.false_eq_true,
      if_false, hfid]
  · exact getEmbeddable_lh3 apiBase id hid_ne hid_all

/-- Witness for C3 (amended): the admin normalizer derives `ABC123xyz`
from `https://drive.google.com/file/d/ABC123xyz/view`; the display
normalizer resolves the stored content-host form of that identifier. -/
theorem spec_c3_stored_reference_resolves_witness :
    driveFileId "https://drive.google.com/file/d/ABC123xyz/view".toList
      = some "ABC123xyz".toList
    ∧ (extractDriveUrl
        "https://drive.google.com/file/d/ABC123xyz/view".toList
        = "https://lh3.googleusercontent.com/d/".toList
            ++ "ABC123xyz".toList
      ∧ getEmbeddableImageUrl "http://localhost:8000".toList
          (some ("https://lh3.googleusercontent.com/d/".toList
            ++ "ABC123xyz".toList))
        = "http://localhost:8000".toList
            ++ "/api/images/drive/".toList ++ "ABC123xyz".toList) :=
  ⟨by decide,
   spec_c3_stored_reference_resolves "http://localhost:8000".toList
     "https://drive.google.com/file/d/ABC123xyz/view".toList
     "ABC123xyz".toList (by decide) (by decide) (by decide)⟩

/-- C4: the source's extraction cascade is extensionally the ordered
matcher list `patternOrder` (content-host `lh3` form, `/file/d/` form,
`open?id=` form, generic `[?&]id=` query form, generic `/d/` form)
evaluated with first-match-wins semantics: on every input — in
particular on any input matching several patterns — the extracted
identifier is the one produced by the earliest matching pattern, and
`firstSome` never consults a later entry once one has succeeded. -/
theorem spec_c4_pattern_priority (url : List Char) :
    extractFileId url = specOrderedExtract url := by
  unfold extractFileId specOrderedExtract patternOrder
  simp only [List.map]
  cases findId lh3Pat url <;> cases findId filePat url <;>
    cases findId openPat url <;> cases findId qidPat url <;>
    cases findId dPat url <;> simp [firstSome]

/-- C5: for an absent input (`null`/`undefined`, modelled `none`) and
likewise for the empty string (sent to the same branch by the
falsiness guard), the normalizer returns the fixed placeholder path
`/placeholder.jpg`, for every configured `apiBase`. -/
theorem spec_c5_absent_placeholder (apiBase : List Char) :
    getEmbeddableImageUrl apiBase none = "/placeholder.jpg".toList
    ∧ getEmbeddableImageUrl apiBase (some []) = "/placeholder.jpg".toList :=
  ⟨rfl, by simp [getEmbeddableImageUrl]⟩

/-- C6 counterexample: the empty string contains neither `google.com`
nor `googleusercontent.com`, yet the normalizer does not return it
unchanged — the falsiness guard yields `/placeholder.jpg` instead. -/
theorem spec_c6_empty_counterexample :
    hasSub "google.com".toList [] = false
    ∧ hasSub "googleusercontent.com".toList [] = false
    ∧ getEmbeddableImageUrl "http://localhost:8000".toList (some [])
      ≠ ([] : List Char) := by decide

/-- C6 (amended): for every non-empty string input containing neither
`google.com` nor `googleusercontent.com`, the normalizer returns the
input unchanged, and on such inputs it is idempotent; the empty string
instead yields the placeholder (see C5). -/
theorem spec_c6_unchanged_idempotent (apiBase url : List Char)
    (hne : url ≠ [])
    (hg : hasSub "google.com".toList url = false)
    (hgu : hasSub "googleusercontent.com".toList url = false) :
    getEmbeddableImageUrl apiBase (some url) = url
    ∧ getEmbeddableImageUrl apiBase
        (some (getEmbeddableImageUrl apiBase (some url)))
      = getEmbeddableImageUrl apiBase (some url) := by
  have h1 : getEmbeddableImageUrl apiBase (some url) = url := by
    simp only [getEmbeddableImageUrl, if_neg hne]
    simp [hne, hg, hgu]
    intro _ _ _ h4
    exact absurd (h4 hg) (by simpa using hgu)
  exact ⟨h1, by rw [h1, h1]⟩

/-- Witness for C6 (amended), at a non-Google URL. -/
theorem spec_c6_unchanged_idempotent_witness :
    ("https://example.com/a.png".toList ≠ ([] : List Char)
    ∧ hasSub "google.com".toList "https://example.com/a.png".toList
        = false
    ∧ hasSub "googleusercontent.com".toList
        "https://example.com/a.png".toList = false)
    ∧ (getEmbeddableImageUrl "http://localhost:8000".toList
        (some "https://example.com/a.png".toList)
      = "https://example.com/a.png".toList
    ∧ getEmbeddableImageUrl "http://localhost:8000".toList
        (some (getEmbeddableImageUrl "http://localhost:8000".toList
          (some "https://example.com/a.png".toList)))
      = getEmbeddableImageUrl "http://localhost:8000".toList
          (some "https://example.com/a.png".toList)) :=
  ⟨by decide,
   spec_c6_unchanged_idempotent "http://localhost:8000".toList
     "https://example.com/a.png".toList (by decide) (by decide)
     (by decide)⟩

/-- C7: when the remote credential exchange fails, `signInAdmin`
returns a non-null error message (the thrown error's message) together
with null user and null token, and stores nothing: the session storage
is exactly as it was before the call. -/
theorem spec_c7_signin_failure (m : List Char) (ss : SessionStore) :
    (signInAdmin (.err m) ss).1.error = some m
    ∧ (signInAdmin (.err m) ss).1.error ≠ none
    ∧ (signInAdmin (.err m) ss).1.user = none
    ∧ (signInAdmin (.err m) ss).1.token = none
    ∧ (signInAdmin (.err m) ss).2 = ss :=
  ⟨rfl, by simp [signInAdmin], rfl, rfl, rfl⟩

/-- C8: the auth store's `logout` unconditionally (it is a total
function of the state, with no failure outcome) clears the stored
credential and the cached profile and resets the in-memory auth state;
and any `verifyToken` performed on the resulting storage answers
not-authenticated — whatever the remote authority would have said —
because no token remains to verify. -/
theorem spec_c8_logout_then_verify (st : AuthState) (ss : SessionStore)
    (remote : ApiResult AdminUser) :
    (logout st ss).1.user = none
    ∧ (logout st ss).1.isAdmin = false
    ∧ (logout st ss).1.token = none
    ∧ (logout st ss).2.authToken = none
    ∧ (logout st ss).2.authStorage = none
    ∧ (verifyToken remote (logout st ss).2).1.valid = false
    ∧ (verifyToken remote (logout st ss).2).1.user = none :=
  ⟨rfl, rfl, rfl, rfl, rfl, rfl, rfl⟩

/-- C9: when a stored credential is present and its remote
verification fails, `verifyToken` answers not-authenticated
(`valid = false`, `user = none`) but leaves the session storage — in
particular the stored token — untouched. -/
theorem spec_c9_failed_verify_keeps_token (tok m : List Char)
    (ss : SessionStore) (h : ss.authToken = some tok) :
    (verifyToken (.err m) ss).1 = ⟨false, none⟩
    ∧ (verifyToken (.err m) ss).2 = ss := by
  constructor
  · simp [verifyToken, h]
  · simp [verifyToken, h]

/-- Witness for C9, at a concrete stored token. -/
theorem spec_c9_failed_verify_keeps_token_witness :
    (SessionStore.mk (some "tok123".toList)
        (some "persisted".toList)).authToken = some "tok123".toList
    ∧ ((verifyToken (.err "Invalid token".toList)
          (SessionStore.mk (some "tok123".toList)
            (some "persisted".toList))).1 = ⟨false, none⟩
      ∧ (verifyToken (.err "Invalid token".toList)
          (SessionStore.mk (some "tok123".toList)
            (some "persisted".toList))).2
        = SessionStore.mk (some "tok123".toList)
            (some "persisted".toList)) :=
  ⟨rfl,
   spec_c9_failed_verify_keeps_token "tok123".toList
     "Invalid token".toList
     (SessionStore.mk (some "tok123".toList) (some "persisted".toList))
     rfl⟩

/-- C10 counterexample: for a non-OK response whose body is not
parsable JSON, `apiRequest` throws the generic message
`Request failed`; the HTTP status code (here 500) is not surfaced in
the thrown message. -/
theorem spec_c10_unparsable_counterexample :
    apiRequest ⟨false, 500, .unparsable⟩
      = .thrown "Request failed".toList
    ∧ hasSub "500".toList "Request failed".toList = false
    ∧ apiRequest ⟨false, 500, .unparsable⟩
      ≠ .thrown (statusMessage 500) := by decide

/-- C10 (amended): for every non-OK response, the thrown error's
message is the JSON body's `detail` field when that field is present
and non-empty; when the body is not parsable JSON the failure is
treated as generic with the fixed message `Request failed` (no status
code); the HTTP status code is surfaced (`HTTP error! status: N`) only
when the body parses as JSON but carries no usable `detail`. -/
theorem spec_c10_error_message (status : Nat) (m : List Char)
    (hm : m ≠ []) :
    apiRequest ⟨false, status, .parsed (some m)⟩ = .thrown m
    ∧ apiRequest ⟨false, status, .parsed none⟩
      = .thrown (statusMessage status)
    ∧ apiRequest ⟨false, status, .unparsable⟩
      = .thrown "Request failed".toList := by
  refine ⟨?_, rfl, ?_⟩
  · simp [apiRequest, hm]
  · simp [apiRequest, statusMessage]

/-- Witness for C10 (amended), at status 500 and detail `Not found`. -/
theorem spec_c10_error_message_witness :
    "Not found".toList ≠ ([] : List Char)
    ∧ (apiRequest ⟨false, 500, .parsed (some "Not found".toList)⟩
        = .thrown "Not found".toList
      ∧ apiRequest ⟨false, 500, .parsed none⟩
        = .thrown (statusMessage 500)
      ∧ apiRequest ⟨false, 500, .unparsable⟩
        = .thrown "Request failed".toList) :=
  ⟨by decide, spec_c10_error_message 500 "Not found".toList (by decide)⟩
